import Mathlib

set_option maxRecDepth 16384

/-!
Shallow embedding of the RAG service of this repository
(`app/services/rag.py`): the chunker, the embedding client, the ingestion
pipeline (`upload_document`), the search operation (`search_documents`) and
the retrieval-and-answer pipeline (`answer_question`).

Python strings are embedded as `List Char`; Python `int` sizes and indices
of the chunker are embedded as `Nat` (the call sites of the repository use
the non-negative defaults `chunk_size=1000`, `overlap=200`).  External
collaborators (the PDF parser, the Gemini embedding and generation
endpoints, the Pinecone index, the relational store) are passed in as
explicit oracles; a Python exception raised by a collaborator is embedded
as an `Except` error value.  Similarity scores are embedded as `ℚ`.
-/

namespace RagSpec

/-- Convert a Lean string literal to the `List Char` embedding of Python
strings. -/
def s2l (s : String) : List Char := s.data

/-- The apostrophe character (U+0027), used in several literal messages of
the source. -/
def apos : Char := Char.ofNat 39

/-- ASCII whitespace, as recognised by Python `str.strip()` (restricted to
the ASCII range; the texts of interest here are ASCII). -/
def pySpace (c : Char) : Bool :=
  c == ' ' || c == '\t' || c == '\n' || c == '\r' || c == Char.ofNat 11 || c == Char.ofNat 12

/-- Python `s.strip()`: remove leading and trailing whitespace. -/
def pyStrip (l : List Char) : List Char :=
  ((l.dropWhile pySpace).reverse.dropWhile pySpace).reverse

/-- Python `text[start:end]` for `0 ≤ start ≤ end` (the only regime the
embedded code reaches). -/
def pySlice (l : List Char) (s e : Nat) : List Char :=
  (l.drop s).take (e - s)

/-- Python `text.rfind(c, s, e)` for a single character and non-negative
bounds: the largest index `i` with `s ≤ i < e` and `text[i] = c`, if any. -/
def rfind (l : List Char) (c : Char) (s : Nat) : Nat → Option Nat
  | 0 => none
  | e + 1 =>
    if e < s then none
    else if l.get? e = some c then some e
    else rfind l c s e

/-- The boundary search of `RAGService.chunk_text` on the word boundary:
`space = text.rfind(' ', start, end)`, preferred only past the midpoint. -/
def wordEnd (text : List Char) (chunk_size start e0 : Nat) : Nat :=
  match rfind text ' ' start e0 with
  | some k => if start + chunk_size / 2 < k then k else e0
  | none => e0

/-- The cut point chosen by one iteration of `RAGService.chunk_text`:
`end = start + chunk_size`, adjusted backward to a sentence terminator or a
word boundary when that lies past the midpoint of the prospective chunk. -/
def chunkEnd (text : List Char) (chunk_size start : Nat) : Nat :=
  let e0 := start + chunk_size
  if e0 < text.length then
    match rfind text '.' start e0 with
    | some j => if start + chunk_size / 2 < j then j + 1 else wordEnd text chunk_size start e0
    | none => wordEnd text chunk_size start e0
  else e0

/-- The `while start < len(text)` loop of `RAGService.chunk_text`, with an
explicit fuel parameter (`none` means the fuel was exhausted before the
loop returned). -/
def chunkLoop (text : List Char) (chunk_size overlap : Nat) :
    Nat → Nat → List (List Char) → Option (List (List Char))
  | 0, _, _ => none
  | fuel + 1, start, chunks =>
    if start < text.length then
      let e := chunkEnd text chunk_size start
      let c := pyStrip (pySlice text start e)
      let chunks2 := if c = [] then chunks else chunks ++ [c]
      let start2 := e - overlap
      if text.length ≤ start2 then some chunks2
      else chunkLoop text chunk_size overlap fuel start2 chunks2
    else some chunks

/-- `RAGService.chunk_text`, run with fuel `len(text) + 1` (sufficient
whenever the loop terminates at all, since every iteration that continues
strictly increases `start`; `none` records non-termination within that
fuel). -/
def chunkTextRun (text : List Char) (chunk_size overlap : Nat) : Option (List (List Char)) :=
  if text.length ≤ chunk_size then some [text]
  else chunkLoop text chunk_size overlap (text.length + 1) 0 []

/-- `RAGService.chunk_text(text, chunk_size, overlap)`; a non-terminating
parameter choice is read as the empty chunk list. -/
def chunk_text (text : List Char) (chunk_size overlap : Nat) : List (List Char) :=
  (chunkTextRun text chunk_size overlap).getD []

/-- `RAGService.get_embeddings`: one Gemini embedding call per text; a
per-item exception is replaced by the zero vector of dimension 768 and the
batch continues.  The external `genai.embed_content` call is the oracle
`o` (`none` embeds an exception). -/
def get_embeddings (o : List Char → Option (List ℚ)) (texts : List (List Char)) :
    List (List ℚ) :=
  texts.map (fun t =>
    match o t with
    | some v => v
    | none => List.replicate 768 (0 : ℚ))

/-- The metadata carried by one Pinecone vector, exactly the dictionary
built by `upload_document`. -/
structure EntryMeta where
  text : List Char
  filename : List Char
  user_id : Int
  chunk_index : Nat
  upload_date : List Char
deriving DecidableEq

/-- One Pinecone index entry `(id, values, metadata)`. -/
structure IndexEntry where
  id : List Char
  values : List ℚ
  metadata : EntryMeta
deriving DecidableEq

/-- One ranked match returned by a Pinecone query. -/
structure IndexMatch where
  metadata : EntryMeta
  score : ℚ
deriving DecidableEq

/-- Insert a match into a list sorted by descending score. -/
def insertDesc (m : IndexMatch) : List IndexMatch → List IndexMatch
  | [] => [m]
  | x :: xs => if x.score < m.score then m :: x :: xs else x :: insertDesc m xs

/-- Sort matches by descending score (insertion sort). -/
def sortDesc : List IndexMatch → List IndexMatch
  | [] => []
  | x :: xs => insertDesc x (sortDesc xs)

/-- Modelled from the spec: the external Pinecone `index.query(vector,
filter={user_id: {$eq: uid}}, top_k, include_metadata=True)` operation,
which is not part of this repository.  Per §4.4 of the spec it returns at
most `top_k` matches satisfying the exact-match owner filter, ordered by
descending similarity; `sim` is the similarity of the query vector against
a stored vector. -/
def indexQuery (entries : List IndexEntry) (sim : List ℚ → ℚ) (uid : Int)
    (top_k : Nat) : List IndexMatch :=
  (sortDesc (((entries.filter (fun e => decide (e.metadata.user_id = uid))).map
    (fun e => ⟨e.metadata, sim e.values⟩)))).take top_k

/-- The dictionary built per match by `RAGService.search_documents`. -/
structure RelevantChunk where
  text : List Char
  filename : List Char
  score : ℚ
  chunk_index : Nat
deriving DecidableEq

/-- The environment of the query-side pipeline: the Pinecone index handle
(`none` embeds `self.index is None`) with its stored entries, the embedding
oracle, the similarity measure applied by Pinecone, and the Gemini
`generate_content` oracle (`.error` embeds an exception raised by the call
or by the `response.text` accessor on a response with missing text). -/
structure SearchEnv where
  index : Option (List IndexEntry)
  embed : List Char → Option (List ℚ)
  sim : List ℚ → List ℚ → ℚ
  generate : List Char → Except (List Char) (List Char)

/-- The entries stored in the index of a `SearchEnv` (empty when the index
handle is absent). -/
def entriesOf (env : SearchEnv) : List IndexEntry :=
  env.index.getD []

/-- `RAGService.search_documents(query, user_id, top_k)`. -/
def search_documents (env : SearchEnv) (query : List Char) (user_id : Int)
    (top_k : Nat) : List RelevantChunk :=
  match env.index with
  | none => []
  | some entries =>
    let query_embedding := (get_embeddings env.embed [query]).headD []
    let results := indexQuery entries (env.sim query_embedding) user_id top_k
    results.map (fun m =>
      { text := m.metadata.text
        filename := m.metadata.filename
        score := m.score
        chunk_index := m.metadata.chunk_index })

/-- One source attribution of `RAGService.answer_question`. -/
structure Source where
  filename : List Char
  relevance_score : ℚ
  preview : List Char
deriving DecidableEq

/-- The dictionary returned by `RAGService.answer_question`
(`chunks_used` is present only on the successful branch). -/
structure AnswerRes where
  answer : List Char
  sources : List Source
  has_context : Bool
  chunks_used : Option Nat
deriving DecidableEq

/-- The fixed no-information answer of `answer_question`. -/
def noInfoMsg : List Char :=
  s2l "I couldn" ++ [apos] ++
  s2l "t find any relevant information in your uploaded documents. Please make sure you" ++
  [apos] ++ s2l "ve uploaded course materials related to your question."

/-- The prefix of the apologetic answer produced by the exception handler
of `answer_question` (the exception text is appended). -/
def apologyPre : List Char :=
  s2l "I apologize, but I encountered an error while processing your question: "

/-- Python `sep.join(parts)`. -/
def joinSep (sep : List Char) : List (List Char) → List Char
  | [] => []
  | [x] => x
  | x :: xs => x ++ sep ++ joinSep sep xs

/-- The context block of `answer_question`: the per-match fragments
`From <filename>:<newline><text>` joined by blank lines. -/
def ctxOf (rc : List RelevantChunk) : List Char :=
  joinSep (s2l "\n\n") (rc.map (fun c => s2l "From " ++ c.filename ++ s2l ":\n" ++ c.text))

/-- The prompt f-string of `answer_question`. -/
def mkPrompt (context question : List Char) : List Char :=
  s2l "\nBased on the following course materials, please answer the student" ++ [apos] ++
  s2l "s question comprehensively and accurately.\n\nCOURSE MATERIALS:\n" ++ context ++
  s2l "\n\nSTUDENT QUESTION: " ++ question ++
  s2l "\n\nINSTRUCTIONS:\n- Answer based primarily on the provided course materials\n- If the materials don" ++
  [apos] ++ s2l "t fully address the question, clearly state what" ++ [apos] ++
  s2l "s missing\n- Provide examples from the materials when possible\n- Keep the answer educational and helpful\n- If asked about topics not covered in the materials, suggest what additional resources might be needed\n\nANSWER:\n"

/-- The per-match source dictionary of `answer_question`, with the bounded
preview `chunk.text[:200] + "..."` for texts longer than 200 characters. -/
def srcOf (c : RelevantChunk) : Source :=
  { filename := c.filename
    relevance_score := c.score
    preview := if 200 < c.text.length then c.text.take 200 ++ s2l "..." else c.text }

/-- `RAGService.answer_question(question, user_id)`. -/
def answer_question (env : SearchEnv) (question : List Char) (user_id : Int) :
    AnswerRes :=
  let relevant_chunks := search_documents env question user_id 3
  if relevant_chunks = [] then
    { answer := noInfoMsg, sources := [], has_context := false, chunks_used := none }
  else
    let prompt := mkPrompt (ctxOf relevant_chunks) question
    match env.generate prompt with
    | Except.ok t =>
      { answer := t
        sources := relevant_chunks.map srcOf
        has_context := true
        chunks_used := some relevant_chunks.length }
    | Except.error e =>
      { answer := apologyPre ++ e, sources := [], has_context := false, chunks_used := none }

/-- `RAGService.extract_text_from_pdf`: concatenate the non-empty page
texts, each followed by a newline; a whitespace-only concatenation raises,
and every exception (including the parser failing on the raw bytes) is
re-wrapped with the `Error extracting text from PDF: ` prefix.  The
external `PyPDF2.PdfReader(...).pages` parse of the uploaded bytes is the
`pages` oracle (`.error` embeds a parser exception, one list element per
page text). -/
def extract_text_from_pdf (pages : Except (List Char) (List (List Char))) :
    Except (List Char) (List Char) :=
  match pages with
  | Except.error e => Except.error (s2l "Error extracting text from PDF: " ++ e)
  | Except.ok ps =>
    let text := ps.foldl (fun acc p => if p = [] then acc else acc ++ p ++ s2l "\n") []
    if pyStrip text = [] then
      Except.error (s2l "Error extracting text from PDF: No readable text found in PDF")
    else Except.ok (pyStrip text)

/-- One vector dictionary prepared for the Pinecone upsert. -/
structure PineVector where
  id : List Char
  values : List ℚ
  metadata : EntryMeta
deriving DecidableEq

/-- The `CourseMaterial` row persisted by `upload_document`. -/
structure CourseMaterial where
  course_id : Nat
  filename : List Char
  original_filename : List Char
  file_path : List Char
  file_type : List Char
  file_size : Nat
  extracted_text : List Char
  is_processed : Bool
  uploaded_by : Int
  uploaded_at : List Char
  description : List Char
deriving DecidableEq

/-- The environment of the ingestion pipeline: index availability
(`self.index is None` when false), the PDF parse of the uploaded bytes and
their byte count, the embedding oracle, the Pinecone `upsert` oracle
applied per batch, the database save (returning the row id), the uuid
stream for chunk ids and the current timestamp string. -/
structure UploadEnv where
  indexAvailable : Bool
  pdfPages : Except (List Char) (List (List Char))
  fileSize : Nat
  embed : List Char → Option (List ℚ)
  upsert : List PineVector → Except (List Char) Unit
  dbSave : CourseMaterial → Except (List Char) Nat
  uuidGen : Nat → List Char
  nowStr : List Char

/-- The result dictionary of `upload_document`: `success: True` with
`{message, course_id, chunks_created, text_length}`, or `success: False`
with a message. -/
inductive UploadResult where
  | success (message : List Char) (course_id : Nat) (chunks_created : Nat) (text_length : Nat)
  | failure (message : List Char)
deriving DecidableEq

/-- Split a list into the batches of 100 used by the Pinecone upload. -/
def batchList : List PineVector → List (List PineVector)
  | [] => []
  | v :: vs => (v :: vs).take 100 :: batchList ((v :: vs).drop 100)
termination_by l => l.length
decreasing_by simp [List.length_drop]; omega

/-- Upsert the batches in order, stopping at the first failing batch. -/
def upsertBatches (up : List PineVector → Except (List Char) Unit) :
    List (List PineVector) → Except (List Char) Unit
  | [] => Except.ok ()
  | b :: bs =>
    match up b with
    | Except.error e => Except.error e
    | Except.ok _ => upsertBatches up bs

/-- The vectors prepared by `upload_document`: enumerate
`zip(chunk_ids, chunks, embeddings)` and attach the metadata dictionary. -/
def buildVectors (env : UploadEnv) (filename : List Char) (user_id : Int)
    (chunks : List (List Char)) (embeddings : List (List ℚ)) : List PineVector :=
  (chunks.zip embeddings).enum.map (fun p =>
    { id := s2l "doc_" ++ s2l (toString user_id) ++ s2l "_" ++ env.uuidGen p.1
      values := p.2.2
      metadata :=
        { text := p.2.1
          filename := filename
          user_id := user_id
          chunk_index := p.1
          upload_date := env.nowStr } })

/-- The failure prefix of the `upload_document` exception handler. -/
def uploadErrPre : List Char := s2l "Error processing document: "

/-- The fixed failure message returned by `upload_document` when the index
handle is absent. -/
def indexUnavailableMsg : List Char :=
  uploadErrPre ++ s2l "Pinecone index not available. Please check your Pinecone configuration."

/-- `RAGService.upload_document(file_content, filename, user_id, db)`:
fail fast on a missing index handle, extract, chunk, embed, upsert in
batches, persist one `CourseMaterial` row, and catch every exception into
a `success: False` result. -/
def upload_document (env : UploadEnv) (filename : List Char) (user_id : Int) :
    UploadResult :=
  if env.indexAvailable = false then UploadResult.failure indexUnavailableMsg
  else
    match extract_text_from_pdf env.pdfPages with
    | Except.error e => UploadResult.failure (uploadErrPre ++ e)
    | Except.ok text_content =>
      if pyStrip text_content = [] then
        UploadResult.failure (uploadErrPre ++ s2l "No text found in the PDF")
      else
        let chunks := chunk_text text_content 1000 200
        let embeddings := get_embeddings env.embed chunks
        let vectors := buildVectors env filename user_id chunks embeddings
        match upsertBatches env.upsert (batchList vectors) with
        | Except.error e => UploadResult.failure (uploadErrPre ++ e)
        | Except.ok _ =>
          let cm : CourseMaterial :=
            { course_id := 1
              filename := filename
              original_filename := filename
              file_path := s2l "uploads/" ++ filename
              file_type := s2l "pdf"
              file_size := env.fileSize
              extracted_text := text_content.take 5000
              is_processed := true
              uploaded_by := user_id
              uploaded_at := env.nowStr
              description := s2l "Processed PDF with " ++ s2l (toString chunks.length) ++ s2l " chunks" }
          match env.dbSave cm with
          | Except.error e => UploadResult.failure (uploadErrPre ++ e)
          | Except.ok cid =>
            UploadResult.success
              (s2l "Document " ++ [apos] ++ filename ++ [apos] ++ s2l " processed successfully")
              cid chunks.length text_content.length

/-! ### Concrete environments used by witnesses and counterexamples -/

/-- An embedding oracle that fails on the empty text and otherwise returns
a constant 768-dimensional vector. -/
def embedW : List Char → Option (List ℚ) :=
  fun t => if t = [] then none else some (List.replicate 768 (1 : ℚ))

/-- An index entry owned by user 1 with a short chunk text. -/
def entry6 : IndexEntry :=
  { id := s2l "doc_1_x"
    values := []
    metadata :=
      { text := s2l "some chunk"
        filename := s2l "f.pdf"
        user_id := 1
        chunk_index := 0
        upload_date := [] } }

/-- A query-side environment whose language model always raises. -/
def cenv6 : SearchEnv :=
  { index := some [entry6]
    embed := fun _ => none
    sim := fun _ _ => 0
    generate := fun _ => Except.error (s2l "boom") }

/-- A query-side environment holding only an entry of user 2. -/
def cenv7 : SearchEnv :=
  { index := some [{ entry6 with metadata := { entry6.metadata with user_id := 2 } }]
    embed := fun _ => none
    sim := fun _ _ => 0
    generate := fun _ => Except.ok (s2l "ans") }

/-- An ingestion environment whose index handle is absent. -/
def cenv8 : UploadEnv :=
  { indexAvailable := false
    pdfPages := Except.ok [s2l "page one text"]
    fileSize := 4
    embed := embedW
    upsert := fun _ => Except.ok ()
    dbSave := fun _ => Except.ok 7
    uuidGen := fun _ => s2l "u"
    nowStr := s2l "2025-01-01" }

/-- A query-side environment holding one entry of user 1 whose chunk text
is 201 characters long, with a succeeding language model. -/
def cenv9 : SearchEnv :=
  { index := some [{ entry6 with metadata := { entry6.metadata with text := List.replicate 201 'b' } }]
    embed := fun _ => none
    sim := fun _ _ => 0
    generate := fun _ => Except.ok (s2l "ans") }

/-! ### Helper lemmas -/

theorem mem_insertDesc {a m : IndexMatch} {l : List IndexMatch} :
    a ∈ insertDesc m l ↔ a = m ∨ a ∈ l := by
  induction l with
  | nil => simp [insertDesc]
  | cons x xs ih =>
    by_cases h : x.score < m.score
    · simp [insertDesc, h]
    · simp [insertDesc, h, ih]
      tauto

theorem mem_sortDesc {a : IndexMatch} {l : List IndexMatch} :
    a ∈ sortDesc l ↔ a ∈ l := by
  induction l with
  | nil => simp [sortDesc]
  | cons x xs ih => simp [sortDesc, mem_insertDesc, ih]

theorem mem_dropWhile_of_mem {ch : Char} {l : List Char}
    (hm : ch ∈ l) (hs : pySpace ch = false) : ch ∈ l.dropWhile pySpace := by
  induction l with
  | nil => cases hm
  | cons x xs ih =>
    by_cases hx : pySpace x
    · rw [List.dropWhile_cons_of_pos hx]
      rcases List.mem_cons.mp hm with rfl | hm2
      · rw [hx] at hs; cases hs
      · exact ih hm2
    · rw [List.dropWhile_cons_of_neg hx]
      exact hm

theorem mem_pyStrip_of_mem {ch : Char} {l : List Char}
    (hm : ch ∈ l) (hs : pySpace ch = false) : ch ∈ pyStrip l := by
  unfold pyStrip
  rw [List.mem_reverse]
  apply mem_dropWhile_of_mem _ hs
  rw [List.mem_reverse]
  exact mem_dropWhile_of_mem hm hs

theorem pyStrip_inf (l : List Char) : pyStrip l <:+: l := by
  unfold pyStrip
  have h1 : (((l.dropWhile pySpace).reverse.dropWhile pySpace).reverse : List Char)
      <+: l.dropWhile pySpace := by
    have h2 : ((l.dropWhile pySpace).reverse.dropWhile pySpace : List Char)
        <:+ (l.dropWhile pySpace).reverse := List.dropWhile_suffix pySpace
    rcases h2 with ⟨pre, hpre⟩
    refine ⟨pre.reverse, ?_⟩
    have := congrArg List.reverse hpre
    simpa using this
  exact h1.isInfix.trans (List.dropWhile_suffix pySpace).isInfix

theorem pySlice_inf (l : List Char) (s e : Nat) : pySlice l s e <:+: l := by
  unfold pySlice
  have h1 : (l.drop s).take (e - s) <+: l.drop s := ⟨(l.drop s).drop (e - s), List.take_append_drop _ _⟩
  exact h1.isInfix.trans (List.drop_suffix s l).isInfix

/-- Lower bound on the cut point of one chunk iteration: with a positive
chunk size, every cut lies strictly past the midpoint offset. -/
theorem chunkEnd_lb (text : List Char) (chunk_size start : Nat) (h1 : 1 ≤ chunk_size) :
    start + chunk_size / 2 + 1 ≤ chunkEnd text chunk_size start := by
  have hd : chunk_size / 2 < chunk_size := Nat.div_lt_self (by omega) (by omega)
  unfold chunkEnd wordEnd
  by_cases he : start + chunk_size < text.length
  · simp only [he, if_true]
    cases hj : rfind text '.' start (start + chunk_size) with
    | none =>
      dsimp only
      cases hk : rfind text ' ' start (start + chunk_size) with
      | none => dsimp only; omega
      | some k =>
        dsimp only
        by_cases hkm : start + chunk_size / 2 < k
        · simp only [hkm, if_true]; omega
        · simp only [hkm, if_false]; omega
    | some j =>
      dsimp only
      by_cases hjm : start + chunk_size / 2 < j
      · simp only [hjm, if_true]; omega
      · simp only [hjm, if_false]
        cases hk : rfind text ' ' start (start + chunk_size) with
        | none => dsimp only; omega
        | some k =>
          dsimp only
          by_cases hkm : start + chunk_size / 2 < k
          · simp only [hkm, if_true]; omega
          · simp only [hkm, if_false]; omega
  · simp only [he, if_false]
    omega

/-- The chunk accumulator only grows: whatever the loop returns contains
the accumulator it started from. -/
theorem chunkLoop_sub {text : List Char} {cs ov : Nat} :
    ∀ {fuel start chunks res}, chunkLoop text cs ov fuel start chunks = some res →
      chunks ⊆ res := by
  intro fuel
  induction fuel with
  | zero => intro start chunks res h; cases h
  | succ f ih =>
    intro start chunks res h
    simp only [chunkLoop] at h
    by_cases hs : start < text.length
    · rw [if_pos hs] at h
      have hacc : chunks ⊆
          (if pyStrip (pySlice text start (chunkEnd text cs start)) = [] then chunks
           else chunks ++ [pyStrip (pySlice text start (chunkEnd text cs start))]) := by
        split
        · exact fun a ha => ha
        · exact List.subset_append_left _ _
      by_cases hb : text.length ≤ chunkEnd text cs start - ov
      · rw [if_pos hb] at h
        cases h
        exact hacc
      · rw [if_neg hb] at h
        exact hacc.trans (ih h)
    · rw [if_neg hs] at h
      cases h
      exact fun a ha => ha

/-- Loop invariant behind C3: every chunk the loop emits is non-empty and
is a contiguous slice (infix) of the input text. -/
theorem chunkLoop_ok {text : List Char} {cs ov : Nat} :
    ∀ {fuel start chunks res}, chunkLoop text cs ov fuel start chunks = some res →
      (∀ c ∈ chunks, c ≠ [] ∧ c <:+: text) → ∀ c ∈ res, c ≠ [] ∧ c <:+: text := by
  intro fuel
  induction fuel with
  | zero => intro start chunks res h; cases h
  | succ f ih =>
    intro start chunks res h hinv
    simp only [chunkLoop] at h
    by_cases hs : start < text.length
    · rw [if_pos hs] at h
      have hinv2 : ∀ c ∈
          (if pyStrip (pySlice text start (chunkEnd text cs start)) = [] then chunks
           else chunks ++ [pyStrip (pySlice text start (chunkEnd text cs start))]),
          c ≠ [] ∧ c <:+: text := by
        split
        · exact hinv
        · intro c hc
          rcases List.mem_append.mp hc with hc1 | hc2
          · exact hinv c hc1
          · rw [List.mem_singleton] at hc2
            subst hc2
            refine ⟨by assumption, ?_⟩
            exact (pyStrip_inf _).trans (pySlice_inf text start (chunkEnd text cs start))
      by_cases hb : text.length ≤ chunkEnd text cs start - ov
      · rw [if_pos hb] at h
        cases h
        exact hinv2
      · rw [if_neg hb] at h
        exact ih h hinv2
    · rw [if_neg hs] at h
      cases h
      exact hinv

/-- Loop invariant behind C3 (coverage up to whitespace): every
non-whitespace character at or past the current position ends up in some
emitted chunk. -/
theorem chunkLoop_cover {text : List Char} {cs ov : Nat} (h1 : 1 ≤ cs) :
    ∀ {fuel start chunks res}, chunkLoop text cs ov fuel start chunks = some res →
      ∀ ch ∈ text.drop start, pySpace ch = false → ch ∈ res.flatten := by
  intro fuel
  induction fuel with
  | zero => intro start chunks res h; cases h
  | succ f ih =>
    intro start chunks res h ch hch hsp
    simp only [chunkLoop] at h
    by_cases hs : start < text.length
    · rw [if_pos hs] at h
      have hse : start ≤ chunkEnd text cs start := by
        have := chunkEnd_lb text cs start h1; omega
      have hsplit : text.drop start =
          pySlice text start (chunkEnd text cs start) ++ text.drop (chunkEnd text cs start) := by
        unfold pySlice
        have hdd : text.drop (chunkEnd text cs start) =
            (text.drop start).drop (chunkEnd text cs start - start) := by
          rw [List.drop_drop]
          congr 1
          omega
        rw [hdd, List.take_append_drop]
      rw [hsplit] at hch
      have hdsub : text.drop (chunkEnd text cs start) ⊆
          text.drop (chunkEnd text cs start - ov) := by
        have hdd : text.drop (chunkEnd text cs start) =
            (text.drop (chunkEnd text cs start - ov)).drop
              (chunkEnd text cs start - (chunkEnd text cs start - ov)) := by
          rw [List.drop_drop]
          congr 1
          omega
        rw [hdd]
        exact List.drop_subset _ _
      rcases List.mem_append.mp hch with hin | hout
      · -- the character sits in the current slice, hence in the stripped chunk
        have hC : ch ∈ pyStrip (pySlice text start (chunkEnd text cs start)) :=
          mem_pyStrip_of_mem hin hsp
        have hCne : pyStrip (pySlice text start (chunkEnd text cs start)) ≠ [] :=
          List.ne_nil_of_mem hC
        have hCmem : pyStrip (pySlice text start (chunkEnd text cs start)) ∈ res := by
          by_cases hb : text.length ≤ chunkEnd text cs start - ov
          · rw [if_pos hb] at h
            cases h
            rw [if_neg hCne]
            exact List.mem_append.mpr (Or.inr (List.mem_singleton.mpr rfl))
          · rw [if_neg hb] at h
            apply chunkLoop_sub h
            rw [if_neg hCne]
            exact List.mem_append.mpr (Or.inr (List.mem_singleton.mpr rfl))
        exact List.mem_flatten.mpr ⟨_, hCmem, hC⟩
      · -- the character sits past the cut; recurse
        by_cases hb : text.length ≤ chunkEnd text cs start - ov
        · exfalso
          have hnil : text.drop (chunkEnd text cs start - ov) = [] :=
            List.drop_eq_nil_of_le hb
          have hmem := hdsub hout
          rw [hnil] at hmem
          cases hmem
        · rw [if_neg hb] at h
          exact ih h ch (hdsub hout) hsp
    · rw [if_neg hs] at h
      exfalso
      have : text.drop start = [] := List.drop_eq_nil_of_le (by omega)
      rw [this] at hch
      cases hch

/-- Termination bound behind C10: with a positive chunk size and an
overlap at most half of it, every continuing iteration advances `start` by
at least one, so fuel `len(text) - start` suffices. -/
theorem chunkLoop_total {text : List Char} {cs ov : Nat} (h1 : 1 ≤ cs) (h2 : ov ≤ cs / 2) :
    ∀ fuel start chunks, text.length - start < fuel →
      (chunkLoop text cs ov fuel start chunks).isSome = true := by
  intro fuel
  induction fuel with
  | zero => intro start chunks h; omega
  | succ f ih =>
    intro start chunks h
    simp only [chunkLoop]
    by_cases hs : start < text.length
    · rw [if_pos hs]
      have hadv : start + ov + 1 ≤ chunkEnd text cs start := by
        have := chunkEnd_lb text cs start h1; omega
      by_cases hb : text.length ≤ chunkEnd text cs start - ov
      · rw [if_pos hb]; rfl
      · rw [if_neg hb]
        exact ih _ _ (by omega)
    · rw [if_neg hs]; rfl

/-- The chunking loop never advances with `chunk_size = 0` and
`overlap = 0` on a non-empty text: no amount of fuel completes it, i.e.
`chunk_text` genuinely fails to terminate there. -/
theorem chunkLoop_zero_stuck :
    ∀ fuel, chunkLoop (s2l "a") 0 0 fuel 0 [] = none := by
  intro fuel
  induction fuel with
  | zero => rfl
  | succ f ih =>
    have hstep : chunkLoop (s2l "a") 0 0 (f + 1) 0 [] = chunkLoop (s2l "a") 0 0 f 0 [] := rfl
    rw [hstep, ih]

/-! ### C3: chunker coverage and non-emptiness -/

/-- C3 counterexample: for the 12-character text `" aaaaaaaaaaa"` with
`chunk_size = 10 > len`, the leading space of the input is stripped from
the first chunk, so the chunks contain no space at all while the input
contains one: no concatenation of chunk spans reconstructs the input, and
the character at position 0 is covered by no chunk. -/
theorem C3_chunk_coverage_cex :
    chunk_text (s2l " aaaaaaaaaaa") 10 2 = [List.replicate 9 'a', List.replicate 4 'a'] ∧
    10 < (s2l " aaaaaaaaaaa").length ∧
    (s2l " aaaaaaaaaaa").count ' ' = 1 ∧
    ((chunk_text (s2l " aaaaaaaaaaa") 10 2).flatten).count ' ' = 0 := by
  decide

/-- C3 (amended): for every text longer than a positive `chunk_size` with
`overlap ≤ chunk_size / 2`, every returned chunk is non-empty and is a
contiguous slice of the input, and every non-whitespace character of the
input occurs in some returned chunk; full reconstruction fails in general
because boundary whitespace is stripped (see the counterexample). -/
theorem C3_chunk_nonempty_cover (text : List Char) (cs ov : Nat)
    (h1 : 1 ≤ cs) (h2 : ov ≤ cs / 2) (h3 : cs < text.length) :
    ((chunk_text text cs ov).all (fun c => decide (c ≠ [] ∧ c <:+: text)) = true) ∧
    (text.all (fun ch => pySpace ch || decide (ch ∈ (chunk_text text cs ov).flatten)) = true) := by
  have hnle : ¬ text.length ≤ cs := by omega
  have hsome := @chunkLoop_total text cs ov h1 h2 (text.length + 1) 0 [] (by omega)
  obtain ⟨res, hloop⟩ := Option.isSome_iff_exists.mp hsome
  have hct : chunk_text text cs ov = res := by
    unfold chunk_text chunkTextRun
    rw [if_neg hnle, hloop]
    rfl
  constructor
  · rw [List.all_eq_true]
    intro c hc
    rw [hct] at hc
    exact decide_eq_true (chunkLoop_ok hloop (by intro c hc; cases hc) c hc)
  · rw [List.all_eq_true]
    intro ch hch
    cases hsp : pySpace ch with
    | true => simp
    | false =>
      have hcov := chunkLoop_cover h1 hloop ch (by simpa using hch) hsp
      rw [hct]
      simp [hcov]

/-- C3 witness: a concrete long text at `chunk_size = 10`, `overlap = 2`
satisfying the amended chunker guarantees. -/
theorem C3_chunk_nonempty_cover_witness :
    ((chunk_text (s2l "aaaa. bbbb. cccc. dddd") 10 2).all
        (fun c => decide (c ≠ [] ∧ c <:+: s2l "aaaa. bbbb. cccc. dddd")) = true) ∧
    ((s2l "aaaa. bbbb. cccc. dddd").all
        (fun ch => pySpace ch ||
          decide (ch ∈ (chunk_text (s2l "aaaa. bbbb. cccc. dddd") 10 2).flatten)) = true) :=
  C3_chunk_nonempty_cover (s2l "aaaa. bbbb. cccc. dddd") 10 2 (by decide) (by decide) (by decide)

/-! ### C4: chunker short-input case -/

/-- C4 counterexample: for the short text `" a"` the code returns the text
unchanged, not trimmed, so the returned chunk differs from the trimmed
input. -/
theorem C4_short_input_cex :
    chunk_text (s2l " a") 10 2 = [s2l " a"] ∧
    pyStrip (s2l " a") = s2l "a" ∧
    chunk_text (s2l " a") 10 2 ≠ [pyStrip (s2l " a")] := by
  decide

/-- C4 (amended): for every text with `len(text) ≤ chunk_size`,
`chunk_text` returns exactly one chunk equal to the text itself, without
any trimming. -/
theorem C4_short_input (text : List Char) (cs ov : Nat) (h : text.length ≤ cs) :
    chunk_text text cs ov = [text] := by
  unfold chunk_text chunkTextRun
  rw [if_pos h]
  rfl

/-- C4 witness at the concrete short text `"abc"`. -/
theorem C4_short_input_witness : chunk_text (s2l "abc") 10 2 = [s2l "abc"] :=
  C4_short_input (s2l "abc") 10 2 (by decide)

/-! ### C10: chunker termination -/

/-- C10 counterexample: `chunk_size = 0`, `overlap = 0` satisfies
`overlap ≤ chunk_size / 2`, yet on the one-character text `"a"` the loop
never terminates (`chunkLoop_zero_stuck` shows no fuel completes it), so
the claimed advance of `chunk_size / 2 + 1 - overlap ≥ 1` per iteration
fails. -/
theorem C10_chunk_termination_cex :
    (0 : Nat) ≤ 0 / 2 ∧ chunkTextRun (s2l "a") 0 0 = none := by
  constructor
  · decide
  · unfold chunkTextRun
    rw [if_neg (by decide)]
    exact chunkLoop_zero_stuck _

/-- C10 (amended): for every text, `chunk_text(text, chunk_size, overlap)`
terminates whenever `1 ≤ chunk_size` and `overlap ≤ chunk_size / 2` (in
particular at the defaults 1000 and 200): the loop completes within
`len(text) + 1` iterations because every continuing iteration advances
`start` by at least one character. -/
theorem C10_chunk_termination (text : List Char) (cs ov : Nat)
    (h1 : 1 ≤ cs) (h2 : ov ≤ cs / 2) :
    (chunkTextRun text cs ov).isSome = true := by
  unfold chunkTextRun
  by_cases h : text.length ≤ cs
  · rw [if_pos h]; rfl
  · rw [if_neg h]
    exact chunkLoop_total h1 h2 _ 0 [] (by omega)

/-- C10 witness at a concrete long text and the ratio-respecting
parameters 10 and 2. -/
theorem C10_chunk_termination_witness :
    (chunkTextRun (s2l "hello world this is a long text") 10 2).isSome = true :=
  C10_chunk_termination (s2l "hello world this is a long text") 10 2 (by decide) (by decide)

/-! ### C1: tenant isolation of search -/

/-- C1: every ranked match returned by `search_documents(query, uid,
top_k)` is the projection of an index entry whose metadata owner id equals
`uid`; no entry of a different owner is ever returned. -/
theorem C1_search_tenant_isolation (env : SearchEnv) (query : List Char) (uid : Int) (k : Nat) :
    (search_documents env query uid k).all
      (fun c => (entriesOf env).any
        (fun e => decide (e.metadata.user_id = uid ∧ c.text = e.metadata.text ∧
          c.filename = e.metadata.filename ∧ c.chunk_index = e.metadata.chunk_index))) = true := by
  rw [List.all_eq_true]
  intro c hc
  cases hix : env.index with
  | none =>
    simp only [search_documents, hix] at hc
    cases hc
  | some entries =>
    simp only [search_documents, hix] at hc
    obtain ⟨m, hm, hmc⟩ := List.mem_map.mp hc
    unfold indexQuery at hm
    have hm2 := List.take_subset _ _ hm
    rw [mem_sortDesc] at hm2
    obtain ⟨e, he, hge⟩ := List.mem_map.mp hm2
    obtain ⟨heent, hef⟩ := List.mem_filter.mp he
    rw [List.any_eq_true]
    refine ⟨e, ?_, ?_⟩
    · simp only [entriesOf, hix, Option.getD_some]
      exact heent
    · subst hmc
      subst hge
      exact decide_eq_true ⟨of_decide_eq_true hef, rfl, rfl, rfl⟩

/-! ### C5: embedding batch shape and degraded mode -/

/-- C5: `get_embeddings` is order-preserving and length-preserving (one
vector per text, the empty list for empty input), a per-item failure is
replaced by the 768-dimensional zero vector without aborting the batch,
and — under the contract that the embedding endpoint returns
768-dimensional vectors on success — every returned vector has dimension
exactly 768. -/
theorem C5_embeddings_shape (o : List Char → Option (List ℚ)) (texts : List (List Char))
    (hdim : ∀ t v, o t = some v → v.length = 768) :
    get_embeddings o texts = texts.map (fun t => (o t).getD (List.replicate 768 (0 : ℚ))) ∧
    (get_embeddings o texts).all (fun v => decide (v.length = 768)) = true := by
  have hmap : get_embeddings o texts =
      texts.map (fun t => (o t).getD (List.replicate 768 (0 : ℚ))) := by
    unfold get_embeddings
    apply List.map_congr_left
    intro t _
    cases h : o t
    · rfl
    · rfl
  refine ⟨hmap, ?_⟩
  rw [List.all_eq_true]
  intro v hv
  rw [hmap] at hv
  obtain ⟨t, _, hvt⟩ := List.mem_map.mp hv
  cases h : o t with
  | none =>
    rw [h, Option.getD_none] at hvt
    exact decide_eq_true (hvt ▸ by simp)
  | some w =>
    rw [h, Option.getD_some] at hvt
    exact decide_eq_true (hvt ▸ hdim t w h)

/-- C5 witness: a concrete oracle failing exactly on the empty text. -/
theorem C5_embeddings_shape_witness :
    get_embeddings embedW [s2l "a", []] =
      [s2l "a", []].map (fun t => (embedW t).getD (List.replicate 768 (0 : ℚ))) ∧
    (get_embeddings embedW [s2l "a", []]).all (fun v => decide (v.length = 768)) = true :=
  C5_embeddings_shape embedW [s2l "a", []] (by
    intro t v h
    unfold embedW at h
    by_cases ht : t = []
    · rw [if_pos ht] at h
      cases h
    · rw [if_neg ht] at h
      cases h
      simp)

/-! ### C7: empty-context answer -/

/-- C7: for an owner with zero indexed chunks and a non-empty question,
`answer_question` returns the fixed no-information message with
`has_context = false` and an empty sources list, as a normal outcome. -/
theorem C7_empty_context_answer (env : SearchEnv) (question : List Char) (uid : Int)
    (hq : question ≠ []) (hiso : ∀ e ∈ entriesOf env, e.metadata.user_id ≠ uid) :
    answer_question env question uid =
      { answer := noInfoMsg, sources := [], has_context := false, chunks_used := none } := by
  have hs : search_documents env question uid 3 = [] := by
    cases hix : env.index with
    | none => simp [search_documents, hix]
    | some entries =>
      have hfil : entries.filter (fun e => decide (e.metadata.user_id = uid)) = [] := by
        rw [List.filter_eq_nil_iff]
        intro e he hdec
        exact hiso e (by simpa [entriesOf, hix] using he) (of_decide_eq_true hdec)
      simp [search_documents, indexQuery, hix, hfil, sortDesc]
  simp [answer_question, hs]

/-- C7 witness: the concrete environment holding only an entry of user 2,
queried for user 1. -/
theorem C7_empty_context_answer_witness :
    answer_question cenv7 (s2l "hi") 1 =
      { answer := noInfoMsg, sources := [], has_context := false, chunks_used := none } :=
  C7_empty_context_answer cenv7 (s2l "hi") 1 (by decide) (by decide)

/-! ### C6: language-model failure handling -/

/-- C6 counterexample: in an environment with one indexed chunk of user 1
(retrieval produces a match) and a language model whose response carries
no text (the `response.text` access raises), `answer_question` returns
`has_context = false` — not `true` as claimed — and its answer embeds the
error detail rather than being a fixed string. -/
theorem C6_model_failure_cex :
    search_documents cenv6 (s2l "q") 1 3 ≠ [] ∧
    (answer_question cenv6 (s2l "q") 1).has_context = false ∧
    (answer_question cenv6 (s2l "q") 1).answer = apologyPre ++ s2l "boom" := by
  decide

/-- C6 (amended): when retrieval produced matches but the language-model
call raises (including the missing-text case), `answer_question` catches
the exception and returns the apology prefix followed by the error detail,
with `has_context = false` and no sources. -/
theorem C6_model_failure (env : SearchEnv) (question : List Char) (uid : Int) (e : List Char)
    (hne : search_documents env question uid 3 ≠ [])
    (hgen : env.generate (mkPrompt (ctxOf (search_documents env question uid 3)) question) =
      Except.error e) :
    answer_question env question uid =
      { answer := apologyPre ++ e, sources := [], has_context := false, chunks_used := none } := by
  simp only [answer_question]
  rw [if_neg hne, hgen]

/-- C6 witness at the concrete failing-model environment. -/
theorem C6_model_failure_witness :
    answer_question cenv6 (s2l "q") 1 =
      { answer := apologyPre ++ s2l "boom", sources := [], has_context := false,
        chunks_used := none } :=
  C6_model_failure cenv6 (s2l "q") 1 (s2l "boom") (by decide) rfl

/-! ### C9: source preview bound -/

/-- C9 counterexample: a contributing chunk of 201 characters yields a
preview equal to its first 200 characters *plus a three-character
ellipsis*, which differs from the first 200 characters themselves. -/
theorem C9_preview_cex :
    (answer_question cenv9 (s2l "q") 1).sources =
      [{ filename := s2l "f.pdf", relevance_score := 0,
         preview := List.replicate 200 'b' ++ s2l "..." }] ∧
    List.replicate 200 'b' ++ s2l "..." ≠ (List.replicate 201 'b').take 200 := by
  decide

/-- C9 (amended): each source entry of a successful answer carries the
filename of the match, its similarity score, and a preview equal to the chunk
text itself when it has at most 200 characters, and to its first 200
characters followed by `"..."` otherwise. -/
theorem C9_source_fields (env : SearchEnv) (question : List Char) (uid : Int) (t : List Char)
    (hne : search_documents env question uid 3 ≠ [])
    (hgen : env.generate (mkPrompt (ctxOf (search_documents env question uid 3)) question) =
      Except.ok t) :
    (answer_question env question uid).sources =
      (search_documents env question uid 3).map (fun c =>
        { filename := c.filename, relevance_score := c.score,
          preview := if 200 < c.text.length then c.text.take 200 ++ s2l "..." else c.text }) := by
  simp only [answer_question]
  rw [if_neg hne, hgen]
  rfl

/-- C9 witness at a concrete environment with a succeeding model. -/
theorem C9_source_fields_witness :
    (answer_question cenv9 (s2l "q") 1).sources =
      (search_documents cenv9 (s2l "q") 1 3).map (fun c =>
        { filename := c.filename, relevance_score := c.score,
          preview := if 200 < c.text.length then c.text.take 200 ++ s2l "..." else c.text }) :=
  C9_source_fields cenv9 (s2l "q") 1 (s2l "ans") (by decide) rfl

/-! ### C8: ingestion fail-fast ordering -/

/-- C8: whenever the index handle is absent, `upload_document` returns the
fixed index-unavailable failure, whatever the rest of the environment (in
particular whatever the PDF extraction oracle would do — the extractor is
never consulted). -/
theorem C8_index_fail_fast (env : UploadEnv) (filename : List Char) (uid : Int)
    (h : env.indexAvailable = false) :
    upload_document env filename uid = UploadResult.failure indexUnavailableMsg := by
  simp [upload_document, h]

/-- C8 witness at a concrete environment whose extraction oracle would
succeed with text. -/
theorem C8_index_fail_fast_witness :
    upload_document cenv8 (s2l "f.pdf") 1 = UploadResult.failure indexUnavailableMsg :=
  C8_index_fail_fast cenv8 (s2l "f.pdf") 1 rfl

/-! ### C2: ingestion returns a tagged result on every input -/

/-- C2: for every environment and input, `upload_document` returns either
a success result carrying the document id, the chunk count and the
extracted text length, or a tagged failure message carrying the
`Error processing document: ` prefix — never anything else (every
exception of a collaborator is caught at the boundary). -/
theorem C2_upload_total_result (env : UploadEnv) (filename : List Char) (uid : Int) :
    (∃ text cid, extract_text_from_pdf env.pdfPages = Except.ok text ∧
        upload_document env filename uid = UploadResult.success
          (s2l "Document " ++ [apos] ++ filename ++ [apos] ++ s2l " processed successfully")
          cid (chunk_text text 1000 200).length text.length) ∨
    (∃ m, upload_document env filename uid = UploadResult.failure (uploadErrPre ++ m)) := by
  simp only [upload_document]
  split
  · exact Or.inr ⟨_, rfl⟩
  · split
    · rename_i e _
      exact Or.inr ⟨e, rfl⟩
    · rename_i text heq
      split
      · exact Or.inr ⟨_, rfl⟩
      · split
        · rename_i e2 _
          exact Or.inr ⟨e2, rfl⟩
        · split
          · rename_i e3 _
            exact Or.inr ⟨e3, rfl⟩
          · rename_i cid _
            exact Or.inl ⟨text, cid, heq, rfl⟩

end RagSpec
